import Mathlib

/-!
Verification of the HTTPie output-stream / download subsystem.

Shallow embedding of the relevant parts of the code base:
  * httpie/downloads.py   (parse_content_range, get_unique_filename, Status,
                           ProgressReporterThread.sum_up)
  * httpie/utils.py       (humanize_bytes)
  * httpie/output/streams.py (BaseStream, RawStream, EncodedStream,
                           PrettyStream, build_output_stream)
  * httpie/output/formatters/xml.py (XMLFormatter.format_body)

Bytes are modelled as natural numbers (the value of each byte), byte strings
as lists of naturals.  Python floats appearing in the code (wall-clock times,
transfer speeds) are modelled as rationals; the decimal rendering performed
by the percent-f conversion is modelled exactly on rationals with
round-half-to-even, which agrees with CPython on every value whose binary
representation is exact.
-/

/-- UTF-8 encoding of one character, as a list of byte values. -/
def utf8EncodeCharNat (c : Char) : List Nat :=
  let n := c.toNat
  if n < 128 then [n]
  else if n < 2048 then [192 + n / 64, 128 + n % 64]
  else if n < 65536 then
    [224 + n / 4096, 128 + n / 64 % 64, 128 + n % 64]
  else
    [240 + n / 262144, 128 + n / 4096 % 64, 128 + n / 64 % 64, 128 + n % 64]

/-- UTF-8 encoding of a string, as a list of byte values.  Models the
Python expression s.encode with the utf8 codec. -/
def utf8Bytes (s : String) : List Nat :=
  (s.data.map utf8EncodeCharNat).flatten

/-! ## parse_content_range (httpie/downloads.py) -/

/-- The error class ContentRangeError of httpie/downloads.py, with one
constructor per distinct raise site of parse_content_range. -/
inductive ContentRangeError
  | missingContentRange
  | invalidFormat
  | invalidRange
  | unexpectedRange
deriving DecidableEq

/-- Maximal run of ASCII digits at the head of a character list, together
with the rest.  Models the greedy digit groups of the regular expression
of parse_content_range. -/
def spanDigits (cs : List Char) : List Char × List Char :=
  (cs.takeWhile Char.isDigit, cs.dropWhile Char.isDigit)

/-- Numeric value of a digit string, as computed by the Python int
constructor on a decimal digit string. -/
def digitsToNat (ds : List Char) : Nat :=
  ds.foldl (fun a c => a * 10 + (c.toNat - 48)) 0

/-- Matching of the anchored regular expression
bytes (first)-(last)/(star-or-total) used by parse_content_range:
returns the three captured groups on a full match and none otherwise. -/
def matchContentRange (s : String) : Option (Nat × Nat × Option Nat) :=
  let cs := s.data
  if cs.take 6 = "bytes ".data then
    let (d1, r1) := spanDigits (cs.drop 6)
    if d1 = [] then none
    else
      match r1 with
      | '-' :: r2 =>
        let (d2, r3) := spanDigits r2
        if d2 = [] then none
        else
          match r3 with
          | '/' :: r4 =>
            if r4 = ['*'] then
              some (digitsToNat d1, digitsToNat d2, none)
            else
              let (d3, r5) := spanDigits r4
              if d3 = [] ∨ r5 ≠ [] then none
              else some (digitsToNat d1, digitsToNat d2, some (digitsToNat d3))
          | _ => none
      | _ => none
  else none

/-- parse_content_range of httpie/downloads.py.  The first argument is the
Content-Range header value (none when the header is absent), the second the
requested resume offset; returns the effective total size or the error
raised. -/
def parse_content_range (contentRange : Option String) (resumedFrom : Nat) :
    Except ContentRangeError Nat :=
  match contentRange with
  | none => .error .missingContentRange
  | some s =>
    match matchContentRange s with
    | none => .error .invalidFormat
    | some (first_byte_pos, last_byte_pos, instance_length) =>
      if decide (last_byte_pos ≤ first_byte_pos)
          || instance_length.elim false (fun n => decide (n ≤ last_byte_pos)) then
        .error .invalidRange
      else if decide (first_byte_pos ≠ resumedFrom)
          || instance_length.elim false (fun n => decide (last_byte_pos + 1 ≠ n)) then
        .error .unexpectedRange
      else
        .ok (last_byte_pos + 1)

/-! ## humanize_bytes (httpie/utils.py) -/

/-- The abbrevs table of humanize_bytes: 1024-based unit factors with their
labels, largest first. -/
def abbrevs : List (Nat × String) :=
  [(2 ^ 50, "PB"), (2 ^ 40, "TB"), (2 ^ 30, "GB"),
   (2 ^ 20, "MB"), (2 ^ 10, "kB"), (1, "B")]

/-- The unit-selection loop of humanize_bytes: the first table entry whose
factor the count reaches; when none is reached the loop leaves the last
entry (1, B) bound. -/
def selectAbbrev (n : ℚ) : Nat × String :=
  (abbrevs.find? (fun fs => decide ((fs.1 : ℚ) ≤ n))).getD (1, "B")

/-- Round a rational to the nearest integer, ties to even: the rounding
applied by the CPython percent-f conversion to an exactly representable
value. -/
def roundHalfEven (q : ℚ) : ℤ :=
  let f := ⌊q⌋
  if q - f < 1 / 2 then f
  else if q - f > 1 / 2 then f + 1
  else if f % 2 = 0 then f else f + 1

/-- Left-pad a string with zeros to the given length, for fractional digit
groups. -/
def padZeros (s : String) (len : Nat) : String :=
  String.mk (List.replicate (len - s.length) '0') ++ s

/-- Fixed-point decimal rendering of a non-negative rational with the given
number of digits after the point: models the percent-f conversion of
CPython (and the format spec 0.5f) on exactly representable values. -/
def formatFixed (q : ℚ) (precision : Nat) : String :=
  let scaled := roundHalfEven (q * (10 : ℚ) ^ precision)
  let ip := scaled / (10 : ℤ) ^ precision
  let fp := scaled % (10 : ℤ) ^ precision
  if precision = 0 then toString ip
  else toString ip ++ "." ++ padZeros (toString fp.toNat) precision

/-- humanize_bytes of httpie/utils.py.  The count is a rational because the
callers also pass transfer speeds, which are true-division results. -/
def humanize_bytes (n : ℚ) (precision : Nat := 2) : String :=
  if n = 1 then "1 B"
  else
    let fs := selectAbbrev n
    formatFixed (n / (fs.1 : ℚ)) precision ++ " " ++ fs.2

/-! ## get_unique_filename (httpie/downloads.py) -/

/-- The candidate name tried at loop iteration k of get_unique_filename:
the bare filename at attempt 0, filename-k afterwards. -/
def attemptName (filename : String) (attempt : Nat) : String :=
  if attempt = 0 then filename else filename ++ "-" ++ toString attempt

/-- get_unique_filename of httpie/downloads.py.  The existence check is a
parameter (the code defaults it to os.path.exists); the while loop returns
the candidate of the first attempt whose name does not exist, so it is the
candidate at the least such attempt index. -/
def get_unique_filename (filename : String) (ex : String → Bool)
    (h : ∃ k, ex (attemptName filename k) = false) : String :=
  attemptName filename (Nat.find h)

/-! ## Output streams (httpie/output/streams.py) -/

/-- BINARY_SUPPRESSED_NOTICE of httpie/output/streams.py, as bytes. -/
def BINARY_SUPPRESSED_NOTICE : List Nat :=
  utf8Bytes ("\n+-----------------------------------------+\n" ++
             "| NOTE: binary data not shown in terminal |\n" ++
             "+-----------------------------------------+")

/-- Result of running a body iterator of a stream: the chunks it yielded
before finishing, and whether it finished by raising
BinarySuppressedError instead of returning. -/
structure BodyRun where
  chunks : List (List Nat)
  raised : Bool
deriving DecidableEq

/-- BaseStream.__iter__ of httpie/output/streams.py: yields the encoded
headers and a blank-line separator when headers are enabled, then the body
chunks when the body is enabled; when the body iterator raises
BinarySuppressedError it yields a newline (only when headers were also
written) followed by the notice, and stops. -/
def baseStreamIter (withHeaders withBody : Bool) (headerBytes : List Nat)
    (body : BodyRun) : List (List Nat) :=
  (if withHeaders then [headerBytes, utf8Bytes "\r\n\r\n"] else []) ++
  (if withBody then
    body.chunks ++
      (if body.raised then
        (if withHeaders then [[10]] else []) ++ [BINARY_SUPPRESSED_NOTICE]
      else [])
  else [])

/-- Chunking of a byte string into successive pieces of the given size:
the documented behaviour of requests iter_content, which backs
HTTPResponse.iter_body of httpie/models.py.  Structured with an explicit
bound (the list length) so that the recursion is total; for a positive
chunk size the bound is never reached. -/
def chunksOfAux (n : Nat) : Nat → List Nat → List (List Nat)
  | _, [] => []
  | 0, _ => []
  | fuel + 1, l => l.take n :: chunksOfAux n fuel (l.drop n)

/-- Chunking of a byte string into pieces of size n (the last piece may be
shorter). -/
def chunksOf (n : Nat) (l : List Nat) : List (List Nat) :=
  chunksOfAux n l.length l

/-- A message as seen by RawStream: the headers text and the raw body
bytes (httpie/models.py exposes exactly these through headers and
iter_body). -/
structure Message where
  headers : String
  body : List Nat

/-- RawStream.iter_body of httpie/output/streams.py: the body chunked at
the configured chunk size, never raising. -/
def rawStreamBody (m : Message) (chunkSize : Nat) : BodyRun :=
  { chunks := chunksOf chunkSize m.body, raised := false }

/-- Iterating a RawStream built over a message with the given chunk size
and both output flags. -/
def rawStreamIter (m : Message) (chunkSize : Nat)
    (withHeaders withBody : Bool) : List (List Nat) :=
  baseStreamIter withHeaders withBody (utf8Bytes m.headers)
    (rawStreamBody m chunkSize)

/-- EncodedStream.iter_body of httpie/output/streams.py, over the line
sequence produced by the message's iter_lines (each yielded item is the
line without its terminator; HTTPResponse.iter_lines supplies the
byte 10 terminator that the stream appends).  The reencode parameter
models line.decode(message encoding).encode(output encoding, replace).
Stops and raises as soon as a line contains a NUL byte; lines before that
are yielded re-encoded. -/
def encodedIterBody (reencode : List Nat → List Nat) :
    List (List Nat) → BodyRun
  | [] => { chunks := [], raised := false }
  | line :: rest =>
    if 0 ∈ line then { chunks := [], raised := true }
    else
      let r := encodedIterBody reencode rest
      { chunks := (reencode line ++ [10]) :: r.chunks, raised := r.raised }

/-- Iterating an EncodedStream over the given body lines. -/
def encodedStreamIter (reencode : List Nat → List Nat)
    (lines : List (List Nat)) (withHeaders withBody : Bool)
    (headerBytes : List Nat) : List (List Nat) :=
  baseStreamIter withHeaders withBody headerBytes
    (encodedIterBody reencode lines)

/-- How the loop of PrettyStream.iter_body ended. -/
inductive PrettyEnd
  | done
  | suppressed
  | converted
deriving DecidableEq

/-- The body buffer accumulated by the conversion escape hatch of
PrettyStream.iter_body: every remaining line followed by its terminator. -/
def joinWithLf (lines : List (List Nat)) : List Nat :=
  (lines.map (fun l => l ++ [10])).flatten

/-- PrettyStream.iter_body of httpie/output/streams.py.  hasConverter
models whether conversion.get_converter(mime) found a converter; pb models
process_body on a bytes line (decode, format_body, encode); convAll models
converter.convert on the buffered body followed by process_body on the
resulting text.  The firstChunk flag mirrors the first_chunk variable:
true only before any line has been yielded. -/
def prettyIterBodyAux (hasConverter : Bool) (pb : List Nat → List Nat)
    (convAll : List Nat → List Nat) (firstChunk : Bool) :
    List (List Nat) → List (List Nat) × PrettyEnd
  | [] => ([], .done)
  | line :: rest =>
    if 0 ∈ line then
      if firstChunk && hasConverter then
        ([convAll (joinWithLf (line :: rest))], .converted)
      else ([], .suppressed)
    else
      let r := prettyIterBodyAux hasConverter pb convAll false rest
      ((pb line ++ [10]) :: r.1, r.2)

/-- PrettyStream.iter_body started with first_chunk set. -/
def prettyIterBody (hasConverter : Bool) (pb : List Nat → List Nat)
    (convAll : List Nat → List Nat) (lines : List (List Nat)) :
    List (List Nat) × PrettyEnd :=
  prettyIterBodyAux hasConverter pb convAll true lines

/-- The four output options of build_output_stream: request headers,
request body, response headers, response body. -/
structure OutputOptions where
  req_h : Bool
  req_b : Bool
  resp_h : Bool
  resp_b : Bool

/-- build_output_stream of httpie/output/streams.py.  The two sub-stream
parameters model the chunk sequences of the Stream constructed over the
request and the response for given with_headers / with_body flags; the
function assembles the output list exactly as the source appends to it and
chains the pieces. -/
def build_output_stream (o : OutputOptions) (stdoutIsatty : Bool)
    (reqStream respStream : Bool → Bool → List (List Nat)) :
    List (List Nat) :=
  let req := o.req_h || o.req_b
  let resp := o.resp_h || o.resp_b
  (((if req then [reqStream o.req_h o.req_b] else []) ++
    (if o.req_b && resp then [[utf8Bytes "\n\n"]] else []) ++
    (if resp then [respStream o.resp_h o.resp_b] else []) ++
    (if stdoutIsatty && o.resp_b then [[utf8Bytes "\n\n"]] else [])).map id).flatten

/-- The claim's reading of build_output_stream, assembled directly from
the specification sentence: request sub-stream when any request part is
requested, then a blank-line separator exactly when the request body is
included and any response part is requested, then the response sub-stream
when any response part is requested, then a trailing blank-line separator
exactly when stdout is an interactive terminal and the response body was
requested. -/
def buildOutputStreamSpec (o : OutputOptions) (stdoutIsatty : Bool)
    (reqStream respStream : Bool → Bool → List (List Nat)) :
    List (List Nat) :=
  (if o.req_h || o.req_b then reqStream o.req_h o.req_b else []) ++
  (if o.req_b && (o.resp_h || o.resp_b) then [utf8Bytes "\n\n"] else []) ++
  (if o.resp_h || o.resp_b then respStream o.resp_h o.resp_b else []) ++
  (if stdoutIsatty && o.resp_b then [utf8Bytes "\n\n"] else [])

/-! ## Download status (httpie/downloads.py, class Status) -/

/-- The fields of the Status object of httpie/downloads.py.  Timestamps
are rationals (wall-clock seconds); a none timestamp models a Python
None. -/
structure Status where
  downloaded : Nat
  total_size : Option Nat
  resumed_from : Nat
  time_started : Option ℚ
  time_finished : Option ℚ
deriving DecidableEq

/-- Status.__init__. -/
def Status.init : Status :=
  { downloaded := 0, total_size := none, resumed_from := 0,
    time_started := none, time_finished := none }

/-- The three mutating operations of Status.  started and finished carry
the wall-clock time that time() returns at the call. -/
inductive StatusOp
  | started (resumedFrom : Nat) (totalSize : Option Nat) (now : ℚ)
  | chunkDownloaded (size : Nat)
  | finished (now : ℚ)

/-- One operation on a Status.  A none result models a failed assert
statement (a fatal AssertionError); otherwise the updated object is
returned.  Mirrors Status.started, Status.chunk_downloaded and
Status.finished of httpie/downloads.py, including each assert. -/
def Status.step (st : Status) : StatusOp → Option Status
  | .started resumedFrom totalSize now =>
    if st.time_started = none then
      some { st with
        total_size := match totalSize with
                      | some v => some v
                      | none => st.total_size,
        downloaded := resumedFrom,
        resumed_from := resumedFrom,
        time_started := some now }
    else none
  | .chunkDownloaded size =>
    if st.time_finished = none then
      some { st with downloaded := st.downloaded + size }
    else none
  | .finished now =>
    if st.time_started ≠ none ∧ st.time_finished = none then
      some { st with time_finished := some now }
    else none

/-- Running a sequence of operations from a given status: each operation
mutates the object in turn, and the first failed assert aborts the
program. -/
def runStatusOpsFrom (st : Status) : List StatusOp → Option Status
  | [] => some st
  | op :: ops => (Status.step st op).bind (fun st' => runStatusOpsFrom st' ops)

/-- Running a sequence of operations from the freshly initialised
status. -/
def runStatusOps (ops : List StatusOp) : Option Status :=
  runStatusOpsFrom Status.init ops

/-- The line-clear escape sequence CLEAR_LINE of httpie/downloads.py. -/
def CLEAR_LINE : String := "\r\x1b[K"

/-- The SUMMARY template of httpie/downloads.py with its three used fields
substituted (the template also receives a total argument that it never
references). -/
def renderSummary (downloaded : String) (timeTaken : String)
    (speed : String) : String :=
  "Done. " ++ downloaded ++ " in " ++ timeTaken ++ "s (" ++ speed ++ "/s)\n"

/-- ProgressReporterThread.sum_up of httpie/downloads.py: the text written
to the progress output (the clear sequence followed by the summary line).
The subtraction of the two timestamps is only meaningful once both are
set, which the reporter loop guarantees by calling sum_up after
has_finished; a none models the attribute access on None that would fail
otherwise. -/
def sum_up (st : Status) : Option String :=
  match st.time_started, st.time_finished with
  | some t0, some t1 =>
    let actually_downloaded : ℚ := (st.downloaded : ℚ) - (st.resumed_from : ℚ)
    let time_taken := t1 - t0
    let speed := if time_taken = 0 then actually_downloaded
                 else actually_downloaded / time_taken
    some (CLEAR_LINE ++
      renderSummary (humanize_bytes actually_downloaded 2)
        (formatFixed time_taken 5) (humanize_bytes speed 2))
  | _, _ => none

/-! ## XMLFormatter.format_body (httpie/output/formatters/xml.py)

The formatter drives the standard-library ElementTree.  The library pieces
are modelled on the fragment of XML the verification touches: documents
consisting of an optional XML declaration, optional whitespace, and a
single attribute-free element.  On that fragment the model follows the
documented behaviour of xml.etree.ElementTree: fromstring accepts one
leading declaration, rejects a second one, and parses a self-closing tag
into an element with no text, no tail and no children; tostring with the
byte encoding utf-8 emits its own XML declaration followed by the
serialised element. -/

/-- A single-quote character, used by the declaration that
ElementTree.tostring emits. -/
def singleQuote : String := String.mk [Char.ofNat 39]

/-- The XML declaration emitted by ElementTree.tostring when a byte
encoding of utf-8 is requested. -/
def ET_DECLARATION : String :=
  "<?xml version=" ++ singleQuote ++ "1.0" ++ singleQuote ++
  " encoding=" ++ singleQuote ++ "utf-8" ++ singleQuote ++ "?>"

/-- An ElementTree element over the modelled fragment: tag, optional text,
optional tail, children. -/
structure XMLElem where
  tag : String
  text : Option String
  tail : Option String
  children : List XMLElem

mutual

/-- Depth of an element tree, used as structural fuel by the recursive
tree walks below. -/
def xmlDepth : XMLElem → Nat
  | ⟨_, _, _, cs⟩ => 1 + xmlDepthList cs

/-- Depth of a forest. -/
def xmlDepthList : List XMLElem → Nat
  | [] => 0
  | e :: es => max (xmlDepth e) (xmlDepthList es)

end

/-- Lazily consume characters other than a newline until the end token
first matches: the non-greedy tail of the two anchored regular expressions
DECLARATION_RE and DOCTYPE_RE of httpie/output/formatters/xml.py. -/
def lazyFind (endTok : List Char) : List Char → Option (List Char)
  | [] => none
  | c :: rest =>
    if endTok.isPrefixOf (c :: rest) then some endTok
    else if c = '\n' then none
    else (lazyFind endTok rest).map (fun l => c :: l)

/-- Match of an anchored pattern start-token, one or more non-newline
characters (non-greedy), end-token, at the head of the text; returns the
matched prefix. -/
def matchPrefixLazy (startTok endTok : List Char) (cs : List Char) :
    Option (List Char) :=
  if startTok.isPrefixOf cs then
    match cs.drop startTok.length with
    | [] => none
    | c :: rest =>
      if c = '\n' then none
      else (lazyFind endTok rest).map (fun m => startTok ++ c :: m)
  else none

/-- DECLARATION_RE.match of httpie/output/formatters/xml.py. -/
def matchDeclaration (s : String) : Option String :=
  (matchPrefixLazy "<?xml".data "?>".data s.data).map String.mk

/-- DOCTYPE_RE.match of httpie/output/formatters/xml.py. -/
def matchDoctype (s : String) : Option String :=
  (matchPrefixLazy "<!DOCTYPE".data ">".data s.data).map String.mk

/-- ElementTree.fromstring on the modelled fragment: optional declaration,
optional blank space, then one self-closing attribute-free element; a
second declaration after the first is a parse error, as is anything
outside the fragment. -/
def et_fromstring (s : String) : Option XMLElem :=
  let cs := s.data
  let cs := match matchPrefixLazy "<?xml".data "?>".data cs with
            | some m => cs.drop m.length
            | none => cs
  let cs := cs.dropWhile (fun c => c = '\n' ∨ c = ' ')
  if "<?xml".data.isPrefixOf cs then none
  else
    match cs with
    | '<' :: rest =>
      let name := rest.takeWhile Char.isAlpha
      let r2 := (rest.dropWhile Char.isAlpha).dropWhile (fun c => c = ' ')
      if name = [] then none
      else if r2 = ['/', '>'] then
        some { tag := String.mk name, text := none, tail := none,
               children := [] }
      else none
    | _ => none

/-- The blankness test that indent applies to text and tail slots:
a None, empty or all-whitespace value is replaced. -/
def blankOpt : Option String → Bool
  | none => true
  | some s => s.trim = ""

/-- Replace the tail of the last element of a list when it is blank: the
assignment that the source makes, after its loop, through the loop
variable left bound to the last child. -/
def setLastTailIfBlank (i : String) : List XMLElem → List XMLElem
  | [] => []
  | [e] => [if blankOpt e.tail then { e with tail := some i } else e]
  | e :: rest => e :: setLastTailIfBlank i rest

/-- The recursive worker _indent of httpie/output/formatters/xml.py,
translated field assignment by field assignment (including the loop
variable reuse that retargets the final tail assignment at the last
child).  The first argument is structural fuel bounding the tree depth;
called with the depth of the element it never runs out, because every
child is strictly shallower. -/
def xmlIndentGo (indentText : String) : Nat → Nat → XMLElem → XMLElem
  | 0, _, e => e
  | fuel + 1, level, e =>
    let i := "\n" ++ String.join (List.replicate level indentText)
    if e.children.isEmpty then
      if level ≠ 0 && blankOpt e.tail then { e with tail := some i } else e
    else
      let text := if blankOpt e.text then some (i ++ indentText) else e.text
      let tail := if blankOpt e.tail then some i else e.tail
      let cs := e.children.map (xmlIndentGo indentText fuel (level + 1))
      { e with text := text, tail := tail,
               children := setLastTailIfBlank i cs }

/-- indent of httpie/output/formatters/xml.py (default four-space
indentation). -/
def xml_indent (e : XMLElem) : XMLElem :=
  xmlIndentGo "    " (xmlDepth e) 0 e

/-- Serialisation of one element, as ElementTree writes it: self-closing
form with a space for an empty element, otherwise the text, the serialised
children and the closing tag; each element is followed by its tail
text. -/
def serializeElemF : Nat → XMLElem → String
  | 0, _ => ""
  | fuel + 1, e =>
    (if (e.text.getD "").isEmpty && e.children.isEmpty then
      "<" ++ e.tag ++ " />"
    else
      "<" ++ e.tag ++ ">" ++ (e.text.getD "") ++
        String.join (e.children.map (serializeElemF fuel)) ++
        "</" ++ e.tag ++ ">") ++
    (e.tail.getD "")

/-- Serialisation of an element with enough fuel for its whole depth. -/
def serializeElem (e : XMLElem) : String :=
  serializeElemF (xmlDepth e) e

/-- ElementTree.tostring with encoding utf-8, decoded back to text as the
formatter does: the declaration that the library adds, a newline, and the
serialised root. -/
def et_tostring (e : XMLElem) : String :=
  ET_DECLARATION ++ "\n" ++ serializeElem e

/-- Substring test, modelling the Python expression xml in mime. -/
def strContainsXml (mime : String) : Bool :=
  mime.data.tails.any (fun t => "xml".data.isPrefixOf t)

/-- XMLFormatter.format_body of httpie/output/formatters/xml.py: when the
MIME type mentions xml and the body parses, re-serialise the indented
tree and put the original doctype and declaration (when the anchored
regular expressions match them) back on top; otherwise return the body
unchanged. -/
def xml_format_body (body : String) (mime : String) : String :=
  if strContainsXml mime then
    match et_fromstring body with
    | none => body
    | some root =>
      let root := xml_indent root
      let declaration := matchDeclaration body
      let doctype := matchDoctype body
      let b := et_tostring root
      let b := match doctype with
               | some d => d ++ "\n" ++ b
               | none => b
      match declaration with
      | some d => d ++ "\n" ++ b
      | none => b
  else body

/-- A concrete existence check used to instantiate the filename theorems:
exactly a.txt and a.txt-1 exist. -/
def sampleExistsCheck : String → Bool :=
  fun s => s == "a.txt" || s == "a.txt-1"

/-! ## Theorems -/

theorem chunksOfAux_flatten (n : Nat) (hn : 0 < n) :
    ∀ (fuel : Nat) (l : List Nat), l.length ≤ fuel →
      (chunksOfAux n fuel l).flatten = l := by
  intro fuel
  induction fuel with
  | zero =>
    intro l hl
    have : l = [] := List.length_eq_zero.mp (Nat.le_zero.mp hl)
    subst this
    rfl
  | succ fuel ih =>
    intro l hl
    cases l with
    | nil => rfl
    | cons x xs =>
      have hdrop : (List.drop n (x :: xs)).length ≤ fuel := by
        simp only [List.length_drop, List.length_cons]
        simp only [List.length_cons] at hl
        omega
      simp only [chunksOfAux, List.flatten_cons, ih _ hdrop]
      exact List.take_append_drop n (x :: xs)

theorem chunksOf_flatten (n : Nat) (hn : 0 < n) (l : List Nat) :
    (chunksOf n l).flatten = l :=
  chunksOfAux_flatten n hn l.length l (Nat.le_refl _)

/-- Claim C3: for every message and every positive chunk size, the
byte-concatenation of all chunks yielded by a RawStream with headers and
body enabled is the UTF-8 encoded headers text, the blank-line separator
CRLFCRLF, and the full body bytes. -/
theorem c3_raw_stream_concatenation (m : Message) (n : Nat) (hn : 0 < n) :
    (rawStreamIter m n true true).flatten =
      utf8Bytes m.headers ++ utf8Bytes "\r\n\r\n" ++ m.body := by
  simp [rawStreamIter, baseStreamIter, rawStreamBody, chunksOf_flatten n hn]

/-- Witness for C3 at a concrete message and chunk size. -/
theorem c3_raw_stream_concatenation_witness :
    (rawStreamIter ⟨"H: v", [1, 2, 3, 4, 5]⟩ 2 true true).flatten =
      utf8Bytes "H: v" ++ utf8Bytes "\r\n\r\n" ++ [1, 2, 3, 4, 5] :=
  c3_raw_stream_concatenation ⟨"H: v", [1, 2, 3, 4, 5]⟩ 2 (by decide)

/-- Claim C4: build_output_stream concatenates, in order, the request
sub-stream when a request part is requested, a blank-line separator
exactly when the request body is included and a response part is
requested, the response sub-stream when a response part is requested, and
a trailing blank-line separator exactly when stdout is an interactive
terminal and the response body was requested; the code assembly equals
this specification assembly on every input, so in particular no trailing
separator is produced for non-terminal output. -/
theorem c4_build_output_stream_assembly (o : OutputOptions)
    (stdoutIsatty : Bool)
    (reqStream respStream : Bool → Bool → List (List Nat)) :
    build_output_stream o stdoutIsatty reqStream respStream =
      buildOutputStreamSpec o stdoutIsatty reqStream respStream := by
  rcases o with ⟨rh, rb, sh, sb⟩
  cases rh <;> cases rb <;> cases sh <;> cases sb <;> cases stdoutIsatty <;>
    simp [build_output_stream, buildOutputStreamSpec]

/-- Claim C1: the claim states that every well-formed Content-Range value
with first less-than-or-equal-to last (and last below the total when a
total is present) whose first position equals the resume offset and whose
last position ends the instance is accepted with result last plus one.
The code instead rejects every single-byte range (first equal to last):
its validity test uses greater-or-equal where the RFC text quoted in the
adjacent comment prescribes strictly-greater.  At the failing inputs below
the claim requires the ok results 1 and 41; the code raises
ContentRangeError. -/
theorem c1_parse_content_range_single_byte_range_rejected :
    parse_content_range (some "bytes 0-0/1") 0 =
      Except.error ContentRangeError.invalidRange ∧
    parse_content_range (some "bytes 40-40/41") 40 =
      Except.error ContentRangeError.invalidRange ∧
    parse_content_range (some "bytes 0-0/*") 0 =
      Except.error ContentRangeError.invalidRange :=
  ⟨rfl, rfl, rfl⟩

/-- Claim C9: the claim states that formatting a body twice through the
XML body formatter equals formatting it once.  Evaluating the code on the
minimal document below: one application prepends the serialiser's XML
declaration; a second application matches that declaration with
DECLARATION_RE and prepends it again on top of the declaration the
serialiser emits anew, so the double application differs from the single
one (the output carries two XML declarations). -/
theorem c9_xml_formatter_not_idempotent :
    xml_format_body "<a/>" "application/xml" = ET_DECLARATION ++ "\n<a />" ∧
    xml_format_body (xml_format_body "<a/>" "application/xml")
        "application/xml" =
      ET_DECLARATION ++ "\n" ++ ET_DECLARATION ++ "\n<a />" ∧
    xml_format_body (xml_format_body "<a/>" "application/xml")
        "application/xml" ≠
      xml_format_body "<a/>" "application/xml" :=
  ⟨by decide, by decide, by decide⟩

theorem encodedIterBody_with_nul (reencode : List Nat → List Nat) :
    ∀ (lines : List (List Nat)), (∃ l ∈ lines, 0 ∈ l) →
      encodedIterBody reencode lines =
        { chunks := (lines.takeWhile (fun l => decide (0 ∉ l))).map
            (fun l => reencode l ++ [10]),
          raised := true } := by
  intro lines
  induction lines with
  | nil => rintro ⟨l, hl, _⟩; cases hl
  | cons line rest ih =>
    intro hex
    by_cases hz : 0 ∈ line
    · simp [encodedIterBody, hz, List.takeWhile_cons]
    · have hex' : ∃ l ∈ rest, 0 ∈ l := by
        rcases hex with ⟨l, hl, h0⟩
        rcases List.mem_cons.mp hl with rfl | hmem
        · exact absurd h0 hz
        · exact ⟨l, hmem, h0⟩
      simp [encodedIterBody, hz, List.takeWhile_cons, ih hex']

/-- Claim C2 (corrected): for a body some line of which contains a NUL
byte, iterating an EncodedStream with the body enabled yields, for the
body portion: the re-encoded lines strictly before the first
NUL-containing line, then a lone newline chunk exactly when headers were
also enabled, then exactly one binary-suppressed notice chunk, and
nothing after it.  (The claim as frozen asserts that no pre-NUL line is
ever yielded; the counterexample refutes that, and this is the nearest
true statement.) -/
theorem c2_encoded_stream_nul_suppression (reencode : List Nat → List Nat)
    (lines : List (List Nat)) (withHeaders : Bool) (headerBytes : List Nat)
    (hex : ∃ l ∈ lines, 0 ∈ l) :
    encodedStreamIter reencode lines withHeaders true headerBytes =
      (if withHeaders then [headerBytes, utf8Bytes "\r\n\r\n"] else []) ++
      (lines.takeWhile (fun l => decide (0 ∉ l))).map
        (fun l => reencode l ++ [10]) ++
      (if withHeaders then [[10]] else []) ++ [BINARY_SUPPRESSED_NOTICE] := by
  rw [encodedStreamIter, encodedIterBody_with_nul reencode lines hex]
  cases withHeaders <;> simp [baseStreamIter]

/-- Witness for the corrected C2 at a concrete stream: headers enabled,
one clean line before the NUL line. -/
theorem c2_encoded_stream_nul_suppression_witness :
    encodedStreamIter (fun l => l) [[97], [98, 0], [99]] true true [72] =
      (if true then [[72], utf8Bytes "\r\n\r\n"] else []) ++
      ([[97], [98, 0], [99]].takeWhile (fun l => decide (0 ∉ l))).map
        (fun l => (fun l => l) l ++ [10]) ++
      (if true then [[10]] else []) ++ [BINARY_SUPPRESSED_NOTICE] :=
  c2_encoded_stream_nul_suppression (fun l => l) [[97], [98, 0], [99]] true
    [72] ⟨[98, 0], by decide, by decide⟩

/-- Counterexample to C2 as frozen: with headers disabled and the body
lines a then b-NUL, the claim requires the stream to yield only the
notice chunk, but the code first yields the re-encoded clean line. -/
theorem c2_counterexample :
    encodedStreamIter (fun l => l) [[97], [98, 0]] false true [] =
      [[97, 10], BINARY_SUPPRESSED_NOTICE] ∧
    encodedStreamIter (fun l => l) [[97], [98, 0]] false true [] ≠
      [BINARY_SUPPRESSED_NOTICE] :=
  ⟨by decide, by decide⟩

theorem prettyIterBodyAux_not_first_not_converted (hc : Bool)
    (pb convAll : List Nat → List Nat) :
    ∀ (lines : List (List Nat)),
      (prettyIterBodyAux hc pb convAll false lines).2 ≠ PrettyEnd.converted := by
  intro lines
  induction lines with
  | nil => simp [prettyIterBodyAux]
  | cons line rest ih =>
    by_cases hz : 0 ∈ line <;> simp [prettyIterBodyAux, hz, ih]

theorem prettyIterBodyAux_not_first_with_nul (hc : Bool)
    (pb convAll : List Nat → List Nat) :
    ∀ (lines : List (List Nat)), (∃ l ∈ lines, 0 ∈ l) →
      prettyIterBodyAux hc pb convAll false lines =
        ((lines.takeWhile (fun l => decide (0 ∉ l))).map
            (fun l => pb l ++ [10]),
         PrettyEnd.suppressed) := by
  intro lines
  induction lines with
  | nil => rintro ⟨l, hl, _⟩; cases hl
  | cons line rest ih =>
    intro hex
    by_cases hz : 0 ∈ line
    · simp [prettyIterBodyAux, hz, List.takeWhile_cons]
    · have hex' : ∃ l ∈ rest, 0 ∈ l := by
        rcases hex with ⟨l, hl, h0⟩
        rcases List.mem_cons.mp hl with rfl | hmem
        · exact absurd h0 hz
        · exact ⟨l, hmem, h0⟩
      simp [prettyIterBodyAux, hz, List.takeWhile_cons, ih hex']

/-- Claim C10: the buffer-whole-remaining-body-and-convert escape hatch of
PrettyStream.iter_body is taken only when a NUL byte occurs in the very
first line of the body (and a converter exists); when the first
NUL-containing line comes later, the stream yields the processed earlier
lines and then raises the binary-suppressed signal even when a converter
for the MIME type is registered (the hasConverter flag is arbitrary, in
particular true). -/
theorem c10_pretty_stream_escape_hatch_first_line_only :
    (∀ (hc : Bool) (pb convAll : List Nat → List Nat)
        (lines : List (List Nat)),
      (prettyIterBody hc pb convAll lines).2 = PrettyEnd.converted →
        hc = true ∧ ∃ l0 rest, lines = l0 :: rest ∧ 0 ∈ l0) ∧
    (∀ (hc : Bool) (pb convAll : List Nat → List Nat) (l0 : List Nat)
        (rest : List (List Nat)),
      0 ∉ l0 → (∃ l ∈ rest, 0 ∈ l) →
        prettyIterBody hc pb convAll (l0 :: rest) =
          ((pb l0 ++ [10]) ::
            (rest.takeWhile (fun l => decide (0 ∉ l))).map
              (fun l => pb l ++ [10]),
           PrettyEnd.suppressed)) := by
  constructor
  · intro hc pb convAll lines hconv
    cases lines with
    | nil => simp [prettyIterBody, prettyIterBodyAux] at hconv
    | cons l0 rest =>
      by_cases hz : 0 ∈ l0
      · refine ⟨?_, l0, rest, rfl, hz⟩
        by_contra hfalse
        have : hc = false := by
          cases hc
          · rfl
          · exact absurd rfl hfalse
        rw [prettyIterBody, prettyIterBodyAux] at hconv
        simp [hz, this] at hconv
      · exfalso
        rw [prettyIterBody, prettyIterBodyAux] at hconv
        simp only [if_neg hz] at hconv
        exact prettyIterBodyAux_not_first_not_converted hc pb convAll rest hconv
  · intro hc pb convAll l0 rest hz hex
    rw [prettyIterBody, prettyIterBodyAux]
    simp only [if_neg hz]
    rw [prettyIterBodyAux_not_first_with_nul hc pb convAll rest hex]

/-- Witness for C10: with a converter registered, the NUL in the second
line still suppresses (after the first processed line), and a NUL in the
first line converts. -/
theorem c10_pretty_stream_escape_hatch_witness :
    prettyIterBody true (fun l => l) (fun l => l) [[97], [0]] =
      ([[97, 10]], PrettyEnd.suppressed) ∧
    ((prettyIterBody true (fun l => l) (fun l => l) [[0], [97]]).2 =
        PrettyEnd.converted →
      true = true ∧ ∃ l0 rest, ([[0], [97]] : List (List Nat)) = l0 :: rest ∧
        0 ∈ l0) := by
  constructor
  · have := c10_pretty_stream_escape_hatch_first_line_only.2 true
      (fun l => l) (fun l => l) [97] [[0]] (by decide)
      ⟨[0], by decide, by decide⟩
    simpa using this
  · exact c10_pretty_stream_escape_hatch_first_line_only.1 true
      (fun l => l) (fun l => l) [[0], [97]]

theorem runStatusOpsFrom_chunks (cs : List Nat) (rest : List StatusOp) :
    ∀ st : Status, st.time_finished = none →
      runStatusOpsFrom st (cs.map StatusOp.chunkDownloaded ++ rest) =
        runStatusOpsFrom { st with downloaded := st.downloaded + cs.sum }
          rest := by
  induction cs with
  | nil =>
    intro st _
    simp [runStatusOpsFrom]
  | cons c cs ih =>
    intro st hfin
    have hstep : Status.step st (StatusOp.chunkDownloaded c) =
        some { st with downloaded := st.downloaded + c } := by
      simp [Status.step, hfin]
    have ih' := ih { st with downloaded := st.downloaded + c } hfin
    simp [runStatusOpsFrom, hstep, ih', Nat.add_assoc]

/-- Claim C6: on a DownloadStatus, the finish timestamp is set at most
once and only after the start timestamp is set; the downloaded counter is
non-decreasing under chunk updates, which are only accepted before
finish; sequences that finish before start or finish twice fail the
assert (a none result) instead of being accepted; and a well-ordered
sequence started-chunks-finished runs to completion with the finish
timestamp set. -/
theorem c6_status_invariants :
    (∀ (st : Status) (τ : ℚ), st.time_started = none →
      Status.step st (StatusOp.finished τ) = none) ∧
    (∀ (st : Status) (τ τ' : ℚ), st.time_finished = some τ' →
      Status.step st (StatusOp.finished τ) = none) ∧
    (∀ (st st' : Status) (τ : ℚ),
      Status.step st (StatusOp.finished τ) = some st' →
        st.time_started ≠ none ∧ st.time_finished = none ∧
        st'.time_finished = some τ ∧ st'.downloaded = st.downloaded) ∧
    (∀ (st st' : Status) (nb : Nat),
      Status.step st (StatusOp.chunkDownloaded nb) = some st' →
        st.time_finished = none ∧ st.downloaded ≤ st'.downloaded ∧
        st'.time_finished = none) ∧
    (∀ (r : Nat) (tot : Option Nat) (τ0 τ1 : ℚ) (cs : List Nat),
      ∃ st : Status,
        runStatusOps (StatusOp.started r tot τ0 ::
          cs.map StatusOp.chunkDownloaded ++ [StatusOp.finished τ1]) =
            some st ∧
        st.time_started = some τ0 ∧ st.time_finished = some τ1 ∧
        st.downloaded = r + cs.sum) := by
  refine ⟨?_, ?_, ?_, ?_, ?_⟩
  · intro st τ hs
    simp [Status.step, hs]
  · intro st τ τ' hf
    simp [Status.step, hf]
  · intro st st' τ hstep
    rw [Status.step] at hstep
    by_cases hc : st.time_started ≠ none ∧ st.time_finished = none
    · rw [if_pos hc] at hstep
      cases hstep
      exact ⟨hc.1, hc.2, rfl, rfl⟩
    · rw [if_neg hc] at hstep
      cases hstep
  · intro st st' nb hstep
    rw [Status.step] at hstep
    by_cases hc : st.time_finished = none
    · rw [if_pos hc] at hstep
      cases hstep
      exact ⟨hc, Nat.le_add_right _ _, hc⟩
    · rw [if_neg hc] at hstep
      cases hstep
  · intro r tot τ0 τ1 cs
    have h1 : Status.step Status.init (StatusOp.started r tot τ0) =
        some { downloaded := r, total_size := tot, resumed_from := r,
               time_started := some τ0, time_finished := none } := by
      cases tot <;> simp [Status.step, Status.init]
    have h2 := runStatusOpsFrom_chunks cs [StatusOp.finished τ1]
      { downloaded := r, total_size := tot, resumed_from := r,
        time_started := some τ0, time_finished := none } rfl
    refine ⟨{ downloaded := r + cs.sum, total_size := tot, resumed_from := r,
              time_started := some τ0, time_finished := some τ1 },
            ?_, rfl, rfl, rfl⟩
    simp only [runStatusOps, runStatusOpsFrom, h1, Option.some_bind,
      List.append_eq]
    rw [h2]
    simp [runStatusOpsFrom, Status.step]

/-- Witness for C6 at concrete statuses and operation sequences. -/
theorem c6_status_invariants_witness :
    Status.step Status.init (StatusOp.finished 5) = none ∧
    Status.step
      { downloaded := 3, total_size := none, resumed_from := 0,
        time_started := some 0, time_finished := some 4 }
      (StatusOp.finished 5) = none ∧
    ({ downloaded := 2, total_size := none, resumed_from := 0,
       time_started := some 0,
       time_finished := none } : Status).time_started ≠ none ∧
    (∃ st : Status,
      runStatusOps (StatusOp.started 40 (some 100) 0 ::
        [30, 30].map StatusOp.chunkDownloaded ++ [StatusOp.finished 2]) =
          some st ∧
      st.time_started = some 0 ∧ st.time_finished = some 2 ∧
      st.downloaded = 40 + [30, 30].sum) := by
  refine ⟨?_, ?_, ?_, ?_⟩
  · exact c6_status_invariants.1 Status.init 5 rfl
  · exact c6_status_invariants.2.1 _ 5 4 rfl
  · exact (c6_status_invariants.2.2.1
      { downloaded := 2, total_size := none, resumed_from := 0,
        time_started := some 0, time_finished := none }
      { downloaded := 2, total_size := none, resumed_from := 0,
        time_started := some 0, time_finished := some 7 } 7 rfl).1
  · exact c6_status_invariants.2.2.2.2 40 (some 100) 0 2 [30, 30]

/-- Claim C5: for a download started at resume offset r with known total
size t, after chunk updates totalling t - r bytes and a finished call,
the reporter's summary line reports humanize_bytes of downloaded minus
resumed_from, that is the t - r bytes transferred in this run, with the
average speed equal to the transferred bytes divided by the elapsed time,
falling back to the raw transferred byte count when the elapsed time is
zero. -/
theorem c5_resume_download_summary (r t : Nat) (cs : List Nat) (t0 t1 : ℚ)
    (hrt : r ≤ t) (hsum : cs.sum = t - r) :
    ∃ st : Status,
      runStatusOps (StatusOp.started r (some t) t0 ::
        cs.map StatusOp.chunkDownloaded ++ [StatusOp.finished t1]) =
          some st ∧
      st.downloaded = t ∧ st.resumed_from = r ∧
      sum_up st = some (CLEAR_LINE ++ renderSummary
        (humanize_bytes ((t : ℚ) - (r : ℚ)) 2)
        (formatFixed (t1 - t0) 5)
        (humanize_bytes (if t1 - t0 = 0 then (t : ℚ) - (r : ℚ)
                         else ((t : ℚ) - (r : ℚ)) / (t1 - t0)) 2)) := by
  have hd : r + cs.sum = t := by omega
  have h1 : Status.step Status.init (StatusOp.started r (some t) t0) =
      some { downloaded := r, total_size := some t, resumed_from := r,
             time_started := some t0, time_finished := none } := by
    simp [Status.step, Status.init]
  have h2 := runStatusOpsFrom_chunks cs [StatusOp.finished t1]
    { downloaded := r, total_size := some t, resumed_from := r,
      time_started := some t0, time_finished := none } rfl
  refine ⟨{ downloaded := t, total_size := some t, resumed_from := r,
            time_started := some t0, time_finished := some t1 },
          ?_, rfl, rfl, ?_⟩
  · simp only [runStatusOps, runStatusOpsFrom, h1, Option.some_bind,
      List.append_eq]
    rw [h2]
    simp [runStatusOpsFrom, Status.step, hd]
  · rw [sum_up]

/-- Witness for C5: resuming at 40 of 100 bytes, two 30-byte chunks, two
seconds of wall time. -/
theorem c5_resume_download_summary_witness :
    ∃ st : Status,
      runStatusOps (StatusOp.started 40 (some 100) 0 ::
        [30, 30].map StatusOp.chunkDownloaded ++ [StatusOp.finished 2]) =
          some st ∧
      st.downloaded = 100 ∧ st.resumed_from = 40 ∧
      sum_up st = some (CLEAR_LINE ++ renderSummary
        (humanize_bytes ((100 : ℚ) - (40 : ℚ)) 2)
        (formatFixed (2 - 0) 5)
        (humanize_bytes (if (2 : ℚ) - 0 = 0 then (100 : ℚ) - (40 : ℚ)
                         else ((100 : ℚ) - (40 : ℚ)) / (2 - 0)) 2)) :=
  c5_resume_download_summary 40 100 [30, 30] 0 2 (by decide) (by decide)

/-- Claim C8: get_unique_filename returns the filename itself when it does
not exist, and otherwise returns filename-k for the smallest positive k
whose candidate does not exist (every smaller positive suffix being
taken). -/
theorem c8_get_unique_filename (filename : String) (ex : String → Bool)
    (h : ∃ k, ex (attemptName filename k) = false) :
    (ex filename = false → get_unique_filename filename ex h = filename) ∧
    (ex filename = true → ∃ k, 0 < k ∧
      ex (filename ++ "-" ++ toString k) = false ∧
      (∀ j, 0 < j → j < k → ex (filename ++ "-" ++ toString j) = true) ∧
      get_unique_filename filename ex h =
        filename ++ "-" ++ toString k) := by
  constructor
  · intro h0
    have hzero : Nat.find h = 0 := by
      rw [Nat.find_eq_zero]
      simpa [attemptName] using h0
    rw [get_unique_filename, hzero]
    simp [attemptName]
  · intro h1
    have hkpos : 0 < Nat.find h := by
      rcases Nat.eq_zero_or_pos (Nat.find h) with h0 | hpos
      · exfalso
        have hs := Nat.find_spec h
        rw [h0] at hs
        simp [attemptName, h1] at hs
      · exact hpos
    refine ⟨Nat.find h, hkpos, ?_, ?_, ?_⟩
    · have hs := Nat.find_spec h
      rwa [attemptName, if_neg (Nat.pos_iff_ne_zero.mp hkpos)] at hs
    · intro j hj hjk
      have hm := Nat.find_min h hjk
      rw [attemptName, if_neg (Nat.pos_iff_ne_zero.mp hj)] at hm
      simpa using hm
    · rw [get_unique_filename, attemptName,
        if_neg (Nat.pos_iff_ne_zero.mp hkpos)]

/-- Witness for C8: with exactly a.txt and a.txt-1 existing, the function
is characterised at a.txt. -/
theorem c8_get_unique_filename_witness :
    (sampleExistsCheck "a.txt" = false →
      get_unique_filename "a.txt" sampleExistsCheck ⟨2, by decide⟩ =
        "a.txt") ∧
    (sampleExistsCheck "a.txt" = true → ∃ k, 0 < k ∧
      sampleExistsCheck ("a.txt" ++ "-" ++ toString k) = false ∧
      (∀ j, 0 < j → j < k →
        sampleExistsCheck ("a.txt" ++ "-" ++ toString j) = true) ∧
      get_unique_filename "a.txt" sampleExistsCheck ⟨2, by decide⟩ =
        "a.txt" ++ "-" ++ toString k) :=
  c8_get_unique_filename "a.txt" sampleExistsCheck ⟨2, by decide⟩

theorem selectAbbrev_isGreatest (n : ℚ) :
    selectAbbrev n ∈ abbrevs ∧
    (((selectAbbrev n).1 : ℚ) ≤ n ∨
      (selectAbbrev n = (1, "B") ∧ ¬ ((1 : ℚ) ≤ n))) ∧
    ∀ (g : Nat) (u : String), (g, u) ∈ abbrevs → (g : ℚ) ≤ n →
      g ≤ (selectAbbrev n).1 := by
  rw [selectAbbrev, abbrevs]
  by_cases h50 : ((2 ^ 50 : Nat) : ℚ) ≤ n
  · rw [List.find?_cons_of_pos _ (by simpa using h50)]
    refine ⟨by simp [abbrevs], Or.inl (by simpa using h50), ?_⟩
    intro g u hmem hle
    simp [abbrevs] at hmem
    rcases hmem with ⟨rfl, rfl⟩ | ⟨rfl, rfl⟩ | ⟨rfl, rfl⟩ | ⟨rfl, rfl⟩ |
      ⟨rfl, rfl⟩ | ⟨rfl, rfl⟩ <;> norm_num
  · rw [List.find?_cons_of_neg _ (by simpa using h50)]
    by_cases h40 : ((2 ^ 40 : Nat) : ℚ) ≤ n
    · rw [List.find?_cons_of_pos _ (by simpa using h40)]
      refine ⟨by simp [abbrevs], Or.inl (by simpa using h40), ?_⟩
      intro g u hmem hle
      simp [abbrevs] at hmem
      rcases hmem with ⟨rfl, rfl⟩ | ⟨rfl, rfl⟩ | ⟨rfl, rfl⟩ | ⟨rfl, rfl⟩ |
        ⟨rfl, rfl⟩ | ⟨rfl, rfl⟩
      · exact absurd hle h50
      all_goals norm_num
    · rw [List.find?_cons_of_neg _ (by simpa using h40)]
      by_cases h30 : ((2 ^ 30 : Nat) : ℚ) ≤ n
      · rw [List.find?_cons_of_pos _ (by simpa using h30)]
        refine ⟨by simp [abbrevs], Or.inl (by simpa using h30), ?_⟩
        intro g u hmem hle
        simp [abbrevs] at hmem
        rcases hmem with ⟨rfl, rfl⟩ | ⟨rfl, rfl⟩ | ⟨rfl, rfl⟩ | ⟨rfl, rfl⟩ |
          ⟨rfl, rfl⟩ | ⟨rfl, rfl⟩
        · exact absurd hle h50
        · exact absurd hle h40
        all_goals norm_num
      · rw [List.find?_cons_of_neg _ (by simpa using h30)]
        by_cases h20 : ((2 ^ 20 : Nat) : ℚ) ≤ n
        · rw [List.find?_cons_of_pos _ (by simpa using h20)]
          refine ⟨by simp [abbrevs], Or.inl (by simpa using h20), ?_⟩
          intro g u hmem hle
          simp [abbrevs] at hmem
          rcases hmem with ⟨rfl, rfl⟩ | ⟨rfl, rfl⟩ | ⟨rfl, rfl⟩ |
            ⟨rfl, rfl⟩ | ⟨rfl, rfl⟩ | ⟨rfl, rfl⟩
          · exact absurd hle h50
          · exact absurd hle h40
          · exact absurd hle h30
          all_goals norm_num
        · rw [List.find?_cons_of_neg _ (by simpa using h20)]
          by_cases h10 : ((2 ^ 10 : Nat) : ℚ) ≤ n
          · rw [List.find?_cons_of_pos _ (by simpa using h10)]
            refine ⟨by simp [abbrevs], Or.inl (by simpa using h10), ?_⟩
            intro g u hmem hle
            simp [abbrevs] at hmem
            rcases hmem with ⟨rfl, rfl⟩ | ⟨rfl, rfl⟩ | ⟨rfl, rfl⟩ |
              ⟨rfl, rfl⟩ | ⟨rfl, rfl⟩ | ⟨rfl, rfl⟩
            · exact absurd hle h50
            · exact absurd hle h40
            · exact absurd hle h30
            · exact absurd hle h20
            all_goals norm_num
          · rw [List.find?_cons_of_neg _ (by simpa using h10)]
            by_cases h1 : ((1 : Nat) : ℚ) ≤ n
            · rw [List.find?_cons_of_pos _ (by simpa using h1)]
              refine ⟨by simp [abbrevs], Or.inl (by simpa using h1), ?_⟩
              intro g u hmem hle
              simp [abbrevs] at hmem
              rcases hmem with ⟨rfl, rfl⟩ | ⟨rfl, rfl⟩ | ⟨rfl, rfl⟩ |
                ⟨rfl, rfl⟩ | ⟨rfl, rfl⟩ | ⟨rfl, rfl⟩
              · exact absurd hle h50
              · exact absurd hle h40
              · exact absurd hle h30
              · exact absurd hle h20
              · exact absurd hle h10
              · exact Nat.le_refl 1
            · rw [List.find?_cons_of_neg _ (by simpa using h1)]
              refine ⟨by simp [abbrevs], Or.inr ⟨rfl, by simpa using h1⟩, ?_⟩
              intro g u hmem hle
              simp [abbrevs] at hmem
              rcases hmem with ⟨rfl, rfl⟩ | ⟨rfl, rfl⟩ | ⟨rfl, rfl⟩ |
                ⟨rfl, rfl⟩ | ⟨rfl, rfl⟩ | ⟨rfl, rfl⟩
              · exact absurd hle h50
              · exact absurd hle h40
              · exact absurd hle h30
              · exact absurd hle h20
              · exact absurd hle h10
              · exact absurd hle h1

/-- Claim C7: humanize_bytes renders 1 as the special-cased 1 B with no
decimal point, 1024 at precision 1 as 1.0 kB, and 0 as 0.00 B without
raising; and for every count other than the special-cased 1 it renders
the count divided by the factor of the largest 1024-based unit of the
table whose threshold the count meets (falling back to the B entry when
even 1 is not met), at the requested precision, followed by that unit's
label. -/
theorem c7_humanize_bytes_units :
    humanize_bytes 1 2 = "1 B" ∧
    humanize_bytes 1024 1 = "1.0 kB" ∧
    humanize_bytes 0 2 = "0.00 B" ∧
    ∀ (n : ℚ) (p : Nat), n ≠ 1 →
      ∃ (f : Nat) (s : String), (f, s) ∈ abbrevs ∧
        ((f : ℚ) ≤ n ∨ ((f, s) = (1, "B") ∧ ¬ ((1 : ℚ) ≤ n))) ∧
        (∀ (g : Nat) (u : String), (g, u) ∈ abbrevs → (g : ℚ) ≤ n → g ≤ f) ∧
        humanize_bytes n p = formatFixed (n / (f : ℚ)) p ++ " " ++ s := by
  refine ⟨?_, ?_, ?_, ?_⟩
  · simp [humanize_bytes]
  · have hsel : selectAbbrev 1024 = (2 ^ 10, "kB") := by decide
    have hscale : (1 : ℚ) * 10 ^ 1 = 10 := by norm_num
    have hr : roundHalfEven 10 = 10 := by simp [roundHalfEven]
    have hff : formatFixed 1 1 = "1.0" := by
      rw [formatFixed, hscale, hr]; decide
    have hdiv : (1024 : ℚ) / ((2 ^ 10 : Nat) : ℚ) = 1 := by norm_num
    rw [humanize_bytes, if_neg (by norm_num : ¬ ((1024 : ℚ) = 1))]
    simp only [hsel, hdiv, hff]
    rfl
  · have hsel : selectAbbrev 0 = (1, "B") := by decide
    have hscale : (0 : ℚ) * 10 ^ 2 = 0 := by norm_num
    have hr : roundHalfEven 0 = 0 := by simp [roundHalfEven]
    have hff : formatFixed 0 2 = "0.00" := by
      rw [formatFixed, hscale, hr]; decide
    have hdiv : (0 : ℚ) / ((1 : Nat) : ℚ) = 0 := by norm_num
    rw [humanize_bytes, if_neg (by norm_num : ¬ ((0 : ℚ) = 1))]
    simp only [hsel, hdiv, hff]
    rfl
  · intro n p hn
    obtain ⟨hmem, hsel, hmono⟩ := selectAbbrev_isGreatest n
    refine ⟨(selectAbbrev n).1, (selectAbbrev n).2, by simpa using hmem,
      ?_, hmono, ?_⟩
    · rcases hsel with hle | ⟨heq, h1⟩
      · exact Or.inl hle
      · exact Or.inr ⟨by rw [← heq], h1⟩
    · rw [humanize_bytes, if_neg hn]

/-- Witness for the universally quantified part of C7 at the count 2048
and precision 2. -/
theorem c7_humanize_bytes_units_witness :
    ∃ (f : Nat) (s : String), (f, s) ∈ abbrevs ∧
      ((f : ℚ) ≤ 2048 ∨ ((f, s) = (1, "B") ∧ ¬ ((1 : ℚ) ≤ 2048))) ∧
      (∀ (g : Nat) (u : String), (g, u) ∈ abbrevs → (g : ℚ) ≤ 2048 →
        g ≤ f) ∧
      humanize_bytes 2048 2 =
        formatFixed ((2048 : ℚ) / (f : ℚ)) 2 ++ " " ++ s :=
  c7_humanize_bytes_units.2.2.2 2048 2 (by decide)

/-- A NUL byte occurs in a body reassembled from its lines exactly when it
occurs in one of the lines: the line terminator byte 10 is never the NUL
byte, so splitting the body into lines neither creates nor hides NUL
bytes.  This connects the line-level hypotheses of the stream theorems to
the body-level wording of the specification. -/
theorem zero_mem_joinWithLf (lines : List (List Nat)) :
    0 ∈ joinWithLf lines ↔ ∃ l ∈ lines, 0 ∈ l := by
  induction lines with
  | nil => simp [joinWithLf]
  | cons l rest ih =>
    simp [joinWithLf] at ih ⊢
